import Mathlib

/-!
# Shallow embedding of the `views` CoreDNS plugin (split-horizon DNS resolver)

This file embeds the configuration-loading core of `setup.go` (the `views`
plugin: raw client-ACL / record parsing, CIDR handling, DNS-name
normalization, and the in-place rebuild performed by `loadConfig`) as
executable Lean definitions, together with models of the address-group
matcher and the query resolver described in the specification (the handler
code those two live in is not part of the sources embedded here, so they are
modelled from the spec's §4.1 and §4.4).

Conventions:
* Go `string` is Lean `String`; byte-level operations are carried out on
  `String.data : List Char` so that every definition evaluates by kernel
  reduction.
* Go `uint16`/`uint32` values in play here (record types, TTLs) stay far
  below their bounds, so they are embedded as `Nat`.
* Go maps are embedded as insertion-ordered association lists with an
  upsert operation (`insertMap`), which reproduces the overwrite semantics
  `m[k] = v` of the source.
* Fallible fetching/parsing of a source document is an `Except String`
  value; `loadConfig` consumes the outcome exactly as the source does
  (log and fall through, leaving the raw list empty on failure).
-/

namespace Views

/-! ## DNS-name normalization

`plugin.Host(name).Normalize()` in the source lower-cases the name and makes
it fully qualified (appends the trailing `"."` unless already present).
Modelled from the spec: the CoreDNS library helper itself is outside the
embedded sources; §4.2 specifies "a canonical fully-qualified lower-case
form". `Char.toLower` matches the library's ASCII letter mapping. -/

/-- Lower-case every character of a string (ASCII letters only, as in the
source's `strings.ToLower` applied to DNS names). -/
def lowerStr (s : String) : String := ⟨s.data.map Char.toLower⟩

/-- Upper-case every character of a string (the source's `strings.ToUpper`,
applied to record-type strings). -/
def upperStr (s : String) : String := ⟨s.data.map Char.toUpper⟩

/-- Does the string end with the DNS label separator `'.'`? -/
def endsDot (s : String) : Bool := s.data.getLast? == some '.'

/-- Fully qualify: append a trailing `"."` unless one is already present
(`dns.Fqdn` in the source's library). -/
def fqdn (s : String) : String := if endsDot s then s else s ++ "."

/-- Modelled from the spec: `plugin.Host(·).Normalize()` — canonical
fully-qualified lower-case form of a DNS name. -/
def normalize (s : String) : String := lowerStr (fqdn s)

/-! ### Character-level lemmas about `Char.toLower` / `Char.toUpper` -/

theorem toNat_ofNat_valid (n : Nat) (h : n.isValidChar) : (Char.ofNat n).toNat = n := by
  rw [Char.ofNat, dif_pos h]
  rfl

theorem toLower_toNat_of_upper (c : Char) (h1 : 65 ≤ c.toNat) (h2 : c.toNat ≤ 90) :
    (c.toLower).toNat = c.toNat + 32 := by
  rw [Char.toLower]
  simp only [ge_iff_le, h1, h2, and_self, if_pos]
  exact toNat_ofNat_valid _ (Or.inl (by omega))

theorem toLower_eq_self (c : Char) (h : ¬(65 ≤ c.toNat ∧ c.toNat ≤ 90)) :
    c.toLower = c := by
  rw [Char.toLower]
  simp only [ge_iff_le]
  rw [if_neg h]

theorem toLower_idem (c : Char) : c.toLower.toLower = c.toLower := by
  by_cases h : 65 ≤ c.toNat ∧ c.toNat ≤ 90
  · have h1 := toLower_toNat_of_upper c h.1 h.2
    apply toLower_eq_self
    omega
  · rw [toLower_eq_self c h, toLower_eq_self c h]

theorem toNat_inj_char (c d : Char) (h : c.toNat = d.toNat) : c = d :=
  Char.ext (UInt32.ext h)

theorem toLower_eq_dot (c : Char) (h : c.toLower = '.') : c = '.' := by
  by_cases hc : 65 ≤ c.toNat ∧ c.toNat ≤ 90
  · exfalso
    have h1 := toLower_toNat_of_upper c hc.1 hc.2
    rw [h] at h1
    have : ('.' : Char).toNat = 46 := by decide
    omega
  · rwa [toLower_eq_self c hc] at h

theorem toUpper_toNat_of_lower (c : Char) (h1 : 97 ≤ c.toNat) (h2 : c.toNat ≤ 122) :
    (c.toUpper).toNat = c.toNat - 32 := by
  rw [Char.toUpper]
  simp only [ge_iff_le, h1, h2, and_self, if_pos]
  exact toNat_ofNat_valid _ (Or.inl (by omega))

theorem toUpper_eq_self (c : Char) (h : ¬(97 ≤ c.toNat ∧ c.toNat ≤ 122)) :
    c.toUpper = c := by
  rw [Char.toUpper]
  simp only [ge_iff_le]
  rw [if_neg h]

theorem toUpper_toLower (c : Char) : c.toLower.toUpper = c.toUpper := by
  by_cases h : 65 ≤ c.toNat ∧ c.toNat ≤ 90
  · have h1 := toLower_toNat_of_upper c h.1 h.2
    apply toNat_inj_char
    rw [toUpper_toNat_of_lower _ (by omega) (by omega), toUpper_eq_self c (by omega), h1]
    omega
  · rw [toLower_eq_self c h]

/-! ### String-level lemmas about normalization -/

theorem lowerStr_data (s : String) : (lowerStr s).data = s.data.map Char.toLower := rfl

theorem lowerStr_idem (s : String) : lowerStr (lowerStr s) = lowerStr s := by
  apply String.ext
  simp only [lowerStr_data, List.map_map]
  exact List.map_congr_left (fun c _ => toLower_idem c)

theorem endsDot_lowerStr (s : String) : endsDot (lowerStr s) = endsDot s := by
  unfold endsDot
  rw [lowerStr_data, List.getLast?_map]
  cases h : s.data.getLast? with
  | none => rfl
  | some c =>
    simp only [Option.map_some']
    rw [Bool.eq_iff_iff]
    simp only [beq_iff_eq, Option.some.injEq]
    exact ⟨fun hl => toLower_eq_dot c hl, fun hl => by rw [hl]; decide⟩

theorem lowerStr_append_dot (s : String) :
    lowerStr (s ++ ".") = lowerStr s ++ "." := by
  apply String.ext
  rw [lowerStr_data, String.data_append, String.data_append, List.map_append, lowerStr_data]
  rfl

theorem endsDot_append_dot (s : String) : endsDot (s ++ ".") = true := by
  unfold endsDot
  rw [String.data_append]
  show ((s.data ++ ['.']).getLast? == some '.') = true
  rw [List.getLast?_concat]
  rfl

theorem endsDot_fqdn (s : String) : endsDot (fqdn s) = true := by
  unfold fqdn
  by_cases h : endsDot s
  · rwa [if_pos h]
  · rw [if_neg h]
    exact endsDot_append_dot s

theorem endsDot_normalize (s : String) : endsDot (normalize s) = true := by
  unfold normalize
  rw [endsDot_lowerStr, endsDot_fqdn]

theorem normalize_idem (s : String) : normalize (normalize s) = normalize s := by
  have h := endsDot_normalize s
  show lowerStr (fqdn (normalize s)) = normalize s
  rw [fqdn, if_pos h]
  exact lowerStr_idem (fqdn s)

theorem normalize_of_lowerStr_eq (n m : String) (h : lowerStr n = lowerStr m) :
    normalize n = normalize m := by
  have hd : endsDot n = endsDot m := by
    rw [← endsDot_lowerStr n, ← endsDot_lowerStr m, h]
  unfold normalize fqdn
  by_cases he : endsDot n
  · rw [if_pos he, ← hd, if_pos he]
    exact h
  · rw [if_neg he, ← hd, if_neg he, lowerStr_append_dot, lowerStr_append_dot, h]

theorem normalize_append_dot (n : String) (h : endsDot n = false) :
    normalize (n ++ ".") = normalize n := by
  unfold normalize fqdn
  rw [endsDot_append_dot, if_pos rfl, h]
  rfl

theorem upperStr_lowerStr (s : String) : upperStr (lowerStr s) = upperStr s := by
  apply String.ext
  show (s.data.map Char.toLower).map Char.toUpper = s.data.map Char.toUpper
  rw [List.map_map]
  exact List.map_congr_left (fun c _ => toUpper_toLower c)

/-! ## CIDR prefixes

The source stores a group's prefixes as `[]*net.IPNet` obtained from
`net.ParseCIDR` and later tests membership with `(*net.IPNet).Contains`.
Both live in Go's standard library; they are embedded here for IPv4
dotted-decimal CIDR notation (`"a.b.c.d/n"`), the form the plugin's
configuration uses. An address is a `Nat` below `2^32`; `ParseCIDR` masks
the address down to its network, and `Contains` compares masked values. -/

/-- Split a character list at every occurrence of `sep` (the separators are
consumed; empty segments are kept, as with Go's `strings.Split`). -/
def splitOnChar (sep : Char) : List Char → List (List Char)
  | [] => [[]]
  | c :: rest =>
    match splitOnChar sep rest with
    | [] => if c == sep then [[], []] else [[c]]
    | g :: gs => if c == sep then [] :: g :: gs else (c :: g) :: gs

/-- Decimal value of a digit list (assumes digits). -/
def digitsVal (l : List Char) : Nat := l.foldl (fun acc c => acc * 10 + (c.toNat - 48)) 0

/-- Parse a non-empty all-digit character list as a decimal `Nat`. -/
def parseNatChars (l : List Char) : Option Nat :=
  if l ≠ [] ∧ l.all Char.isDigit then some (digitsVal l) else none

/-- Parse one dotted-decimal octet (0–255). -/
def parseOctet (l : List Char) : Option Nat :=
  match parseNatChars l with
  | some n => if n ≤ 255 then some n else none
  | none => none

/-- Parse an IPv4 address in dotted-decimal form into its 32-bit value. -/
def parseIPv4 (l : List Char) : Option Nat :=
  match (splitOnChar '.' l).mapM parseOctet with
  | some (a :: b :: c :: d :: []) => some (((a * 256 + b) * 256 + c) * 256 + d)
  | _ => none

/-- An IPv4 network: the (already masked) network address and the mask
length. The embedding of Go's `*net.IPNet` as produced by `net.ParseCIDR`. -/
structure IPNet where
  addr : Nat
  bits : Nat
deriving DecidableEq

/-- Embedding of `net.ParseCIDR` for IPv4 CIDR strings: `"a.b.c.d/n"` with
each octet in 0–255 and `n ≤ 32`; the stored address is masked down to the
network. Anything else (including the malformed strings the source warns
about) is `none`. -/
def parseCIDR (s : String) : Option IPNet :=
  match splitOnChar '/' s.data with
  | ipPart :: bitsPart :: [] =>
    match parseIPv4 ipPart, parseNatChars bitsPart with
    | some ip, some b =>
      if b ≤ 32 then some ⟨ip / 2 ^ (32 - b) * 2 ^ (32 - b), b⟩ else none
    | _, _ => none
  | _ => none

/-- Embedding of `(*net.IPNet).Contains`: the address belongs to the network
iff masking it with the network mask yields the network address. -/
def containsIP (net : IPNet) (ip : Nat) : Bool :=
  ip / 2 ^ (32 - net.bits) * 2 ^ (32 - net.bits) == net.addr

/-! ## Data model (`setup.go` types and the `Views` fields it assigns) -/

/-- `RawClientACL` — one entry of the raw client source document. -/
structure RawClientACL where
  Name : String
  CIDRPrefixes : List String
deriving DecidableEq

/-- One element of a `RawRecord`'s `Records` list (the anonymous struct in
the source: `name`, `ttl`, `type`, `value`). The Go field `Type` is spelled
`rtype` because `Type` is reserved in Lean. -/
structure RawRecordEntry where
  name : String
  ttl : Nat
  rtype : String
  value : String
deriving DecidableEq

/-- `RawRecord` — one record set of the raw record source document. -/
structure RawRecord where
  Name : String
  Records : List RawRecordEntry
deriving DecidableEq

/-- `ClientACL` — a named group with its parsed CIDR networks. -/
structure ClientACL where
  Name : String
  CIDRNets : List IPNet
deriving DecidableEq

/-- `Zone` — one stored record entry. The Go field `Type : uint16` is
spelled `rrtype` because `Type` is reserved in Lean; its values are the
`miekg/dns` codes (A = 1, CNAME = 5, TXT = 16, AAAA = 28, unset = 0). -/
structure Zone where
  Name : String
  TTL : Nat
  rrtype : Nat
  Value : String
deriving DecidableEq

/-- `Zones` — one record set: the ordered list of (normalized) names in
input order and the name-keyed map of entries. -/
structure Zones where
  Names : List String
  Z : List (String × Zone)
deriving DecidableEq

/-- The mutable fields of the `Views` plugin struct that `loadConfig`
assigns: the published client groups and the per-group record sets. -/
structure ViewsState where
  ClientACLs : List ClientACL
  ClientZones : List (String × Zones)
deriving DecidableEq

/-- Lookup in the association-list embedding of a Go map. -/
def lookupMap {α : Type} (m : List (String × α)) (k : String) : Option α :=
  (m.find? (fun p => p.1 == k)).map (fun p => p.2)

/-- `m[k] = v` on the association-list embedding of a Go map: replace the
binding if the key is present, append it otherwise. -/
def insertMap {α : Type} : List (String × α) → String → α → List (String × α)
  | [], k, v => [(k, v)]
  | p :: m, k, v => if p.1 == k then (k, v) :: m else p :: insertMap m k v

/-! ## `loadConfig` -/

/-- The inner prefix loop of `loadConfig`: parse each CIDR string, dropping
(after a warning) the ones `net.ParseCIDR` rejects. -/
def buildCIDRNets (cidrs : List String) : List IPNet := cidrs.filterMap parseCIDR

/-- The client loop of `loadConfig` (lines 184–200): one `ClientACL` per raw
entry, in order, each with its parseable prefixes. -/
def buildClientACLs (raw : List RawClientACL) : List ClientACL :=
  raw.map (fun c => { Name := c.Name, CIDRNets := buildCIDRNets c.CIDRPrefixes })

/-- The record-type switch of `loadConfig` (lines 210–222): the type string
is upper-cased and compared against "A", "AAAA", "CNAME", "TXT"; anything
else leaves the `uint16` at its zero value (the UNKNOWN type). -/
def rrtypeOfString (t : String) : Nat :=
  if upperStr t = "A" then 1
  else if upperStr t = "AAAA" then 28
  else if upperStr t = "CNAME" then 5
  else if upperStr t = "TXT" then 16
  else 0

/-- The `Zone` literal built for one raw record (lines 224–229): name and
value are both normalized, the TTL is copied, the type comes from the
switch. -/
def buildZone (r : RawRecordEntry) : Zone :=
  { Name := normalize r.name
    TTL := r.ttl
    rrtype := rrtypeOfString r.rtype
    Value := normalize r.value }

/-- One iteration of the record loop (lines 230–232): the normalized name is
appended to `Names` and the entry is stored in `Z`, overwriting any earlier
entry of the same name. -/
def addRecord (zs : Zones) (r : RawRecordEntry) : Zones :=
  let rr := buildZone r
  { Names := zs.Names ++ [rr.Name], Z := insertMap zs.Z rr.Name rr }

/-- The record loop of `loadConfig` over one raw record set. -/
def buildZones (records : List RawRecordEntry) : Zones :=
  records.foldl addRecord { Names := [], Z := [] }

/-- The record-set loop of `loadConfig` (lines 203–236): one `Zones` value
per raw record set, keyed by the set's name. -/
def buildClientZones (raw : List RawRecord) : List (String × Zones) :=
  raw.foldl (fun m r => insertMap m r.Name (buildZones r.Records)) []

/-- The raw list a fetch outcome leaves behind: the parsed list on success;
on failure the source merely logs and falls through, so the local variable
keeps its zero value, the empty list. -/
def fetchList {α : Type} (f : Except String (List α)) : List α :=
  match f with
  | .ok l => l
  | .error _ => []

/-- `loadConfig` (lines 154–237) as a state transformer: given the previous
published state and the two fetch outcomes, the state after the call. The
source rebuilds both fields from the raw lists unconditionally — note the
result never consults `st`. -/
def loadConfig (st : ViewsState) (fc : Except String (List RawClientACL))
    (fr : Except String (List RawRecord)) : ViewsState :=
  let _ := st
  { ClientACLs := buildClientACLs (fetchList fc)
    ClientZones := buildClientZones (fetchList fr) }

/-- The sequence of states of the shared `Views` value that a concurrent
reader can observe while `loadConfig` runs, at the granularity of the
source's assignments to `v.ClientACLs` (line 182 empties it, line 196
appends one group per iteration) and `v.ClientZones` (line 202 empties it,
line 235 inserts one record set per iteration). The head is the state on
entry and the last element is the state on return. -/
def loadConfigTrace (st : ViewsState) (fc : Except String (List RawClientACL))
    (fr : Except String (List RawRecord)) : List ViewsState :=
  let rawClients := fetchList fc
  let rawRecords := fetchList fr
  let aclSteps := (List.range (rawClients.length + 1)).map
    (fun i => ViewsState.mk (buildClientACLs (rawClients.take i)) st.ClientZones)
  let zoneSteps := (List.range (rawRecords.length + 1)).map
    (fun i => ViewsState.mk (buildClientACLs rawClients) (buildClientZones (rawRecords.take i)))
  st :: (aclSteps ++ zoneSteps)

/-! ## Address-group matcher and query resolver

Modelled from the spec: both live in the plugin's handler file, which is not
among the embedded sources; §4.1 and §4.4 specify them. -/

/-- Modelled from the spec (§4.1, the handler file is not among the embedded
sources): iterate the groups in declared order and return the name of the
first group one of whose prefixes contains the client address. -/
def matchClient (acls : List ClientACL) (ip : Nat) : Option String :=
  match acls with
  | [] => none
  | acl :: rest =>
    if acl.CIDRNets.any (fun net => containsIP net ip) then some acl.Name
    else matchClient rest ip

/-- Result of one resolution: a fully specified answer, or Decline —
the signal that the query passes to the next handler in the chain. -/
inductive RResult where
  | answer (ttl : Nat) (rrtype : Nat) (value : String)
  | decline
deriving DecidableEq

/-- Modelled from the spec (§4.4, the handler file is not among the embedded
sources): match the client address to a group, look up the group's record
set, look up the normalized query name, and answer only when the stored
type equals the query type and is not UNKNOWN; every other path declines. -/
def resolve (st : ViewsState) (ip : Nat) (qname : String) (qtype : Nat) : RResult :=
  match matchClient st.ClientACLs ip with
  | none => .decline
  | some gname =>
    match lookupMap st.ClientZones gname with
    | none => .decline
    | some zs =>
      match lookupMap zs.Z (normalize qname) with
      | none => .decline
      | some rr =>
        if rr.rrtype = 0 then .decline
        else if rr.rrtype = qtype then .answer rr.TTL rr.rrtype rr.Value
        else .decline

/-! ## Map lemmas -/

theorem lookupMap_nil {α : Type} (k : String) : lookupMap ([] : List (String × α)) k = none := rfl

theorem lookupMap_cons {α : Type} (p : String × α) (m : List (String × α)) (k : String) :
    lookupMap (p :: m) k = if p.1 = k then some p.2 else lookupMap m k := by
  unfold lookupMap
  rw [List.find?_cons]
  by_cases h : p.1 = k
  · have hb : (p.1 == k) = true := beq_iff_eq.mpr h
    rw [if_pos h, hb]
    rfl
  · have hb : (p.1 == k) = false := beq_eq_false_iff_ne.mpr h
    rw [if_neg h, hb]

theorem lookupMap_insertMap {α : Type} (m : List (String × α)) (k k' : String) (v : α) :
    lookupMap (insertMap m k v) k' = if k' = k then some v else lookupMap m k' := by
  induction m with
  | nil =>
    rw [insertMap, lookupMap_cons, lookupMap_nil]
    by_cases h : k' = k
    · have h1 : k = k' := h.symm
      rw [if_pos h1, if_pos h]
    · have h1 : ¬k = k' := fun hh => h hh.symm
      rw [if_neg h1, if_neg h]
  | cons p m ih =>
    rw [insertMap]
    by_cases hp : p.1 = k
    · rw [if_pos (beq_iff_eq.mpr hp), lookupMap_cons, lookupMap_cons]
      by_cases h : k' = k
      · have h1 : k = k' := h.symm
        simp only [if_pos h1, if_pos h]
      · have h1 : ¬k = k' := fun hh => h hh.symm
        have h2 : ¬p.1 = k' := fun hh => h (Eq.symm (hp.symm.trans hh))
        simp only [if_neg h1, if_neg h, if_neg h2]
    · rw [if_neg (by simpa using hp), lookupMap_cons, lookupMap_cons, ih]
      by_cases hpk : p.1 = k'
      · by_cases h : k' = k
        · exact absurd (hpk.trans h) hp
        · simp only [if_pos hpk, if_neg h]
      · by_cases h : k' = k
        · simp only [if_neg hpk, if_pos h]
        · simp only [if_neg hpk, if_neg h]

theorem keys_insertMap {α : Type} (m : List (String × α)) (k : String) (v : α) :
    (insertMap m k v).map Prod.fst =
      if k ∈ m.map Prod.fst then m.map Prod.fst else m.map Prod.fst ++ [k] := by
  induction m with
  | nil => simp [insertMap]
  | cons p m ih =>
    rw [insertMap]
    by_cases hp : p.1 = k
    · rw [if_pos (beq_iff_eq.mpr hp)]
      simp [hp]
    · rw [if_neg (by simpa using hp), List.map_cons, ih, List.map_cons]
      have h2 : ¬k = p.1 := fun hh => hp hh.symm
      by_cases h : k ∈ m.map Prod.fst
      · rw [if_pos h, if_pos (by simp [h])]
      · rw [if_neg h, if_neg (by simp [h, h2])]
        rfl

theorem nodup_keys_insertMap {α : Type} (m : List (String × α)) (k : String) (v : α)
    (h : (m.map Prod.fst).Nodup) : ((insertMap m k v).map Prod.fst).Nodup := by
  rw [keys_insertMap]
  by_cases hk : k ∈ m.map Prod.fst
  · rwa [if_pos hk]
  · rw [if_neg hk]
    simp [List.nodup_append, h, hk]

theorem length_insertMap {α : Type} (m : List (String × α)) (k : String) (v : α) :
    (insertMap m k v).length ≤ m.length + 1 := by
  induction m with
  | nil => simp [insertMap]
  | cons p m ih =>
    rw [insertMap]
    by_cases hp : p.1 = k
    · rw [if_pos (beq_iff_eq.mpr hp)]
      simp
    · rw [if_neg (by simpa using hp)]
      simpa using Nat.succ_le_succ ih

/-! ## Record-set construction lemmas -/

theorem addRecord_Z (zs : Zones) (r : RawRecordEntry) :
    (addRecord zs r).Z = insertMap zs.Z (buildZone r).Name (buildZone r) := rfl

theorem addRecord_Names (zs : Zones) (r : RawRecordEntry) :
    (addRecord zs r).Names = zs.Names ++ [(buildZone r).Name] := rfl

theorem foldl_addRecord_lookup (recs : List RawRecordEntry) (acc : Zones) (n : String) :
    lookupMap (recs.foldl addRecord acc).Z n =
      ((recs.map buildZone).reverse.find? (fun z => z.Name == n)).or (lookupMap acc.Z n) := by
  induction recs generalizing acc with
  | nil => simp
  | cons r rs ih =>
    rw [List.foldl_cons, ih (addRecord acc r), List.map_cons, List.reverse_cons,
      List.find?_append, Option.or_assoc]
    congr 1
    rw [addRecord_Z, lookupMap_insertMap]
    by_cases h : n = (buildZone r).Name
    · rw [if_pos h, List.find?_cons]
      have : ((buildZone r).Name == n) = true := beq_iff_eq.mpr h.symm
      rw [this]
      rfl
    · rw [if_neg h, List.find?_cons]
      have : ((buildZone r).Name == n) = false := beq_eq_false_iff_ne.mpr (fun hh => h hh.symm)
      rw [this]
      rfl

theorem buildZones_lookup (recs : List RawRecordEntry) (n : String) :
    lookupMap (buildZones recs).Z n =
      (recs.map buildZone).reverse.find? (fun z => z.Name == n) := by
  rw [buildZones, foldl_addRecord_lookup]
  simp [lookupMap_nil]

theorem foldl_addRecord_Names (recs : List RawRecordEntry) (acc : Zones) :
    (recs.foldl addRecord acc).Names = acc.Names ++ recs.map (fun r => (buildZone r).Name) := by
  induction recs generalizing acc with
  | nil => simp
  | cons r rs ih =>
    rw [List.foldl_cons, ih (addRecord acc r), addRecord_Names, List.map_cons,
      List.append_assoc]
    rfl

theorem buildZones_Names (recs : List RawRecordEntry) :
    (buildZones recs).Names = recs.map (fun r => normalize r.name) := by
  rw [buildZones, foldl_addRecord_Names]
  rfl

theorem foldl_addRecord_nodup (recs : List RawRecordEntry) (acc : Zones)
    (h : (acc.Z.map Prod.fst).Nodup) :
    ((recs.foldl addRecord acc).Z.map Prod.fst).Nodup := by
  induction recs generalizing acc with
  | nil => exact h
  | cons r rs ih =>
    rw [List.foldl_cons]
    exact ih (addRecord acc r) (by rw [addRecord_Z]; exact nodup_keys_insertMap _ _ _ h)

theorem buildZones_nodup_keys (recs : List RawRecordEntry) :
    ((buildZones recs).Z.map Prod.fst).Nodup :=
  foldl_addRecord_nodup recs _ (by simp)

theorem foldl_addRecord_length (recs : List RawRecordEntry) (acc : Zones) :
    (recs.foldl addRecord acc).Z.length ≤ acc.Z.length + recs.length := by
  induction recs generalizing acc with
  | nil => simp
  | cons r rs ih =>
    rw [List.foldl_cons]
    calc ((rs.foldl addRecord (addRecord acc r)).Z.length)
        ≤ (addRecord acc r).Z.length + rs.length := ih (addRecord acc r)
      _ ≤ (acc.Z.length + 1) + rs.length := by
          rw [addRecord_Z]
          exact Nat.add_le_add_right (length_insertMap _ _ _) _
      _ = acc.Z.length + (rs.length + 1) := by omega
      _ = acc.Z.length + (r :: rs).length := by rw [List.length_cons]

theorem buildZones_lookup_isSome (recs : List RawRecordEntry) (n : String) :
    (lookupMap (buildZones recs).Z n).isSome ↔ ∃ r ∈ recs, normalize r.name = n := by
  rw [buildZones_lookup]
  rw [List.find?_isSome]
  constructor
  · rintro ⟨z, hz, hp⟩
    rw [List.mem_reverse, List.mem_map] at hz
    obtain ⟨r, hr, hzr⟩ := hz
    exact ⟨r, hr, by rw [show normalize r.name = (buildZone r).Name from rfl, hzr]; exact beq_iff_eq.mp hp⟩
  · rintro ⟨r, hr, hn⟩
    refine ⟨buildZone r, ?_, beq_iff_eq.mpr hn⟩
    rw [List.mem_reverse, List.mem_map]
    exact ⟨r, hr, rfl⟩

/-! ## Matcher lemmas -/

theorem matchClient_eq_find? (acls : List ClientACL) (ip : Nat) :
    matchClient acls ip =
      (acls.find? (fun g => g.CIDRNets.any (fun net => containsIP net ip))).map
        (fun g => g.Name) := by
  induction acls with
  | nil => rfl
  | cons g rest ih =>
    rw [matchClient, List.find?_cons]
    cases h : g.CIDRNets.any (fun net => containsIP net ip) with
    | true => simp only [h, if_pos]; rfl
    | false => simp only [h, Bool.false_eq_true, if_false]; exact ih

/-! ## CIDR-loading lemmas -/

theorem buildCIDRNets_filter (cidrs : List String) :
    buildCIDRNets (cidrs.filter (fun s => (parseCIDR s).isSome)) = buildCIDRNets cidrs := by
  induction cidrs with
  | nil => rfl
  | cons c cs ih =>
    unfold buildCIDRNets at ih ⊢
    rw [List.filter_cons]
    cases h : parseCIDR c with
    | none =>
      rw [if_neg (by simp [h]), List.filterMap_cons_none h, ih]
    | some net =>
      rw [if_pos (by simp [h]), List.filterMap_cons_some h,
        List.filterMap_cons_some h, ih]

/-- Dropping every unparseable prefix string from a raw group, the
transformation the claim compares against. -/
def dropUnparseable (c : RawClientACL) : RawClientACL :=
  { c with CIDRPrefixes := c.CIDRPrefixes.filter (fun s => (parseCIDR s).isSome) }

/-! ## Concrete sample configuration used by the refresh theorems -/

/-- A previously published snapshot: group `internal` = 10.0.0.0/8 with one
A record. -/
def prevSample : ViewsState :=
  ⟨buildClientACLs [⟨"internal", ["10.0.0.0/8"]⟩],
   buildClientZones [⟨"internal", [⟨"host.example.com", 300, "A", "10.1.2.3"⟩]⟩]⟩

/-- Replacement client data arriving in a successful refresh. -/
def newClientsSample : List RawClientACL := [⟨"corp", ["192.168.0.0/16"]⟩]

/-- Replacement record data arriving in a successful refresh. -/
def newRecordsSample : List RawRecord := [⟨"corp", [⟨"c.example.org", 60, "A", "192.168.9.9"⟩]⟩]

/-- The state right after `loadConfig` executes `v.ClientACLs = []*ClientACL{}`
(line 182): no groups at all, while the previous record sets are still
published. -/
def partialSample : ViewsState := ⟨[], prevSample.ClientZones⟩

/-! ## Claim theorems -/

/-- C1: the claim says a failed refresh leaves the previously published
configuration fully intact. The code does the opposite: `loadConfig` only
logs a fetch/parse error and falls through, rebuilding both fields from the
raw lists that remained empty, so for every previous state a doubly-failing
refresh ends in the blank state (first conjunct); concretely, the
`prevSample` snapshot is wiped (second), the wiped state is not the previous
one (third), and a query answered before the failed refresh declines after
it (fourth and fifth). -/
theorem c1_failed_refresh_wipes_previous_state :
    (∀ (st : ViewsState) (e1 e2 : String),
      loadConfig st (.error e1) (.error e2) = ⟨[], []⟩)
    ∧ loadConfig prevSample (.error "client source unreachable")
        (.error "record source unreachable") = ⟨[], []⟩
    ∧ (⟨[], []⟩ : ViewsState) ≠ prevSample
    ∧ resolve prevSample (10 * 16777216 + 5 * 65536 + 5 * 256 + 5) "host.example.com" 1
        = .answer 300 1 "10.1.2.3."
    ∧ resolve ⟨[], []⟩ (10 * 16777216 + 5 * 65536 + 5 * 256 + 5) "host.example.com" 1
        = .decline :=
  ⟨fun _ _ _ => rfl, by decide, by decide, by decide, by decide⟩

/-- C2: the claim says publication is atomic, a reader never observing a
partially built state. The code mutates the shared `Views` value field by
field, and the observable trace of a successful refresh contains
`partialSample` — emptied groups paired with the previous record sets —
which differs both from the state before the refresh (the trace's head) and
from the state after it (the trace's last element). -/
theorem c2_reader_can_observe_partial_state :
    partialSample ∈ loadConfigTrace prevSample (.ok newClientsSample) (.ok newRecordsSample)
    ∧ partialSample ≠ prevSample
    ∧ partialSample ≠ loadConfig prevSample (.ok newClientsSample) (.ok newRecordsSample)
    ∧ (loadConfigTrace prevSample (.ok newClientsSample) (.ok newRecordsSample)).head?
        = some prevSample
    ∧ (loadConfigTrace prevSample (.ok newClientsSample) (.ok newRecordsSample)).getLast?
        = some (loadConfig prevSample (.ok newClientsSample) (.ok newRecordsSample)) := by
  refine ⟨by decide, by decide, by decide, by decide, by decide⟩

/-- C3: `match` returns the name of the first group in declared order with a
prefix containing the address (stated as the `find?` characterization); a
group with no (valid) prefixes never matches and is transparent; if no group
matches the result is `none`; and a group all of whose predecessors fail to
match wins regardless of what follows it. -/
theorem c3_first_matching_group_wins (acls : List ClientACL) (ip : Nat) :
    matchClient acls ip =
      (acls.find? (fun g => g.CIDRNets.any (fun net => containsIP net ip))).map
        (fun g => g.Name)
    ∧ (∀ (name : String) (rest : List ClientACL),
        matchClient (⟨name, []⟩ :: rest) ip = matchClient rest ip)
    ∧ ((∀ g ∈ acls, g.CIDRNets.any (fun net => containsIP net ip) = false) →
        matchClient acls ip = none)
    ∧ (∀ (pre post : List ClientACL) (g : ClientACL),
        (∀ g' ∈ pre, g'.CIDRNets.any (fun net => containsIP net ip) = false) →
        g.CIDRNets.any (fun net => containsIP net ip) = true →
        matchClient (pre ++ g :: post) ip = some g.Name) := by
  refine ⟨matchClient_eq_find? acls ip, fun name rest => rfl, fun h => ?_, ?_⟩
  · rw [matchClient_eq_find?, List.find?_eq_none.mpr (fun g hg => by simp [h g hg]),
      Option.map_none']
  · intro pre post g hpre hg
    induction pre with
    | nil => rw [List.nil_append, matchClient, if_pos hg]
    | cons p ps ih =>
      rw [List.cons_append, matchClient,
        if_neg (by simp [hpre p (List.mem_cons_self p ps)])]
      exact ih (fun g' hg' => hpre g' (List.mem_cons_of_mem p hg'))

/-- C3 witness: with an all-malformed (hence empty) group first, an
`internal` 10.0.0.0/8 group second and a catch-all 0.0.0.0/0 group last,
the address 10.5.5.5 — contained in both of the last two — matches
`internal`. -/
theorem c3_first_matching_group_wins_witness :
    matchClient
      (buildClientACLs [⟨"broken", ["bogus"]⟩, ⟨"internal", ["10.0.0.0/8"]⟩,
        ⟨"external", ["0.0.0.0/0"]⟩]) (10 * 16777216 + 5 * 65536 + 5 * 256 + 5)
      = some "internal" :=
  (c3_first_matching_group_wins
      (buildClientACLs [⟨"broken", ["bogus"]⟩, ⟨"internal", ["10.0.0.0/8"]⟩,
        ⟨"external", ["0.0.0.0/0"]⟩])
      (10 * 16777216 + 5 * 65536 + 5 * 256 + 5)).2.2.2
    (buildClientACLs [⟨"broken", ["bogus"]⟩])
    (buildClientACLs [⟨"external", ["0.0.0.0/0"]⟩])
    ⟨"internal", buildCIDRNets ["10.0.0.0/8"]⟩
    (by decide) (by decide)

/-- C4: every failure leg of `resolve` — no matching group, no record set
for the matched group's name, no entry for the normalized query name, or an
entry whose stored type is UNKNOWN or differs from the query type — returns
the very same `Decline` value, so the causes are indistinguishable to the
caller; in particular an unmatched client declines every query. -/
theorem c4_decline_on_every_failure_leg (st : ViewsState) (ip : Nat) (qname : String)
    (qtype : Nat) :
    (matchClient st.ClientACLs ip = none → resolve st ip qname qtype = .decline)
    ∧ (∀ g, matchClient st.ClientACLs ip = some g →
        lookupMap st.ClientZones g = none → resolve st ip qname qtype = .decline)
    ∧ (∀ g zs, matchClient st.ClientACLs ip = some g →
        lookupMap st.ClientZones g = some zs →
        lookupMap zs.Z (normalize qname) = none → resolve st ip qname qtype = .decline)
    ∧ (∀ g zs rr, matchClient st.ClientACLs ip = some g →
        lookupMap st.ClientZones g = some zs →
        lookupMap zs.Z (normalize qname) = some rr →
        (rr.rrtype = 0 ∨ rr.rrtype ≠ qtype) → resolve st ip qname qtype = .decline) := by
  refine ⟨fun h => by simp [resolve, h],
    fun g h1 h2 => by simp [resolve, h1, h2],
    fun g zs h1 h2 h3 => by simp [resolve, h1, h2, h3],
    fun g zs rr h1 h2 h3 h4 => ?_⟩
  rcases h4 with h4 | h4
  · simp [resolve, h1, h2, h3, h4]
  · by_cases h0 : rr.rrtype = 0
    · simp [resolve, h1, h2, h3, h0]
    · simp [resolve, h1, h2, h3, h0, h4]

/-- C4 witness: a client in no configured group (the empty state) declines
a concrete query. -/
theorem c4_decline_on_every_failure_leg_witness :
    resolve ⟨[], []⟩ 12345 "host.example.com" 1 = .decline :=
  (c4_decline_on_every_failure_leg ⟨[], []⟩ 12345 "host.example.com" 1).1 rfl

/-- C5: the record map retains exactly one entry per normalized name
(`find?` characterization plus key distinctness), an entry is present for a
name exactly when some raw record normalizes to it, and with duplicate
names the entry stored is the one appearing last in the raw input. -/
theorem c5_last_write_wins (recs : List RawRecordEntry) (n : String) :
    lookupMap (buildZones recs).Z n
        = (recs.map buildZone).reverse.find? (fun z => z.Name == n)
    ∧ ((buildZones recs).Z.map Prod.fst).Nodup
    ∧ ((lookupMap (buildZones recs).Z n).isSome ↔ ∃ r ∈ recs, normalize r.name = n)
    ∧ (∀ (pre mid post : List RawRecordEntry) (r1 r2 : RawRecordEntry),
        normalize r1.name = normalize r2.name →
        (∀ r ∈ post, normalize r.name ≠ normalize r2.name) →
        lookupMap (buildZones (pre ++ r1 :: mid ++ r2 :: post)).Z (normalize r2.name)
          = some (buildZone r2)) := by
  refine ⟨buildZones_lookup recs n, buildZones_nodup_keys recs,
    buildZones_lookup_isSome recs n, ?_⟩
  intro pre mid post r1 r2 _ hpost
  rw [buildZones_lookup]
  simp only [List.map_append, List.map_cons, List.reverse_append, List.reverse_cons,
    List.append_assoc, List.find?_append]
  have hpostnone :
      ((post.map buildZone).reverse.find?
        (fun z => z.Name == normalize r2.name)) = none := by
    apply List.find?_eq_none.mpr
    intro z hz
    rw [List.mem_reverse, List.mem_map] at hz
    obtain ⟨r, hr, hzr⟩ := hz
    simp only [beq_iff_eq]
    rw [← hzr]
    exact hpost r hr
  rw [hpostnone, Option.none_or]
  have h2 : (([buildZone r2]).find? (fun z => z.Name == normalize r2.name))
      = some (buildZone r2) := by
    have hb : ((buildZone r2).Name == normalize r2.name) = true := beq_iff_eq.mpr rfl
    simp [List.find?_cons, hb]
  rw [h2]
  rfl

/-- C5 witness: two raw records whose names normalize identically; the
loaded entry is the later one. -/
theorem c5_last_write_wins_witness :
    lookupMap (buildZones [⟨"a.b", 1, "A", "1.1.1.1"⟩, ⟨"A.B.", 2, "A", "2.2.2.2"⟩]).Z
        (normalize "A.B.")
      = some (buildZone ⟨"A.B.", 2, "A", "2.2.2.2"⟩) :=
  (c5_last_write_wins [⟨"a.b", 1, "A", "1.1.1.1"⟩, ⟨"A.B.", 2, "A", "2.2.2.2"⟩]
      (normalize "A.B.")).2.2.2
    [] [] [] ⟨"a.b", 1, "A", "1.1.1.1"⟩ ⟨"A.B.", 2, "A", "2.2.2.2"⟩
    (by decide) (by decide)

/-- C6: a malformed CIDR string is dropped at single-prefix granularity:
the load result is identical to loading the input with all unparseable
prefixes removed, every group is still created with its name (so a
partially-malformed group survives), removing one malformed prefix from a
prefix list changes nothing, and matching behaves as if the malformed
entries were absent. -/
theorem c6_malformed_cidr_dropped_alone (raws : List RawClientACL) (ip : Nat) :
    buildClientACLs raws = buildClientACLs (raws.map dropUnparseable)
    ∧ (buildClientACLs raws).length = raws.length
    ∧ (buildClientACLs raws).map (fun g => g.Name) = raws.map (fun c => c.Name)
    ∧ (∀ (pre post : List String) (bad : String), parseCIDR bad = none →
        buildCIDRNets (pre ++ bad :: post) = buildCIDRNets (pre ++ post))
    ∧ matchClient (buildClientACLs raws) ip
        = matchClient (buildClientACLs (raws.map dropUnparseable)) ip := by
  have hmain : buildClientACLs raws = buildClientACLs (raws.map dropUnparseable) := by
    unfold buildClientACLs
    rw [List.map_map]
    apply List.map_congr_left
    intro c _
    show ClientACL.mk c.Name (buildCIDRNets c.CIDRPrefixes)
      = ClientACL.mk c.Name (buildCIDRNets (c.CIDRPrefixes.filter (fun s => (parseCIDR s).isSome)))
    rw [buildCIDRNets_filter]
  refine ⟨hmain, by simp [buildClientACLs], by simp [buildClientACLs], ?_, by rw [hmain]⟩
  intro pre post bad h
  unfold buildCIDRNets
  rw [List.filterMap_append, List.filterMap_append, List.filterMap_cons_none h]

/-- C6 witness: removing the malformed middle entry leaves the two valid
prefixes intact. -/
theorem c6_malformed_cidr_dropped_alone_witness :
    buildCIDRNets ["10.0.0.0/8", "bogus", "192.168.0.0/16"]
      = buildCIDRNets ["10.0.0.0/8", "192.168.0.0/16"] :=
  (c6_malformed_cidr_dropped_alone [] 0).2.2.2.1 ["10.0.0.0/8"] ["192.168.0.0/16"] "bogus"
    (by decide)

/-- C7: normalization is idempotent, case-insensitive (equal lower-casings
give equal normal forms), insensitive to appending the trailing separator,
and a record loaded under `www.example.com` is found by looking up the
normalization of `WWW.EXAMPLE.COM.`. -/
theorem c7_normalization_round_trip (n m : String) :
    normalize (normalize n) = normalize n
    ∧ (lowerStr n = lowerStr m → normalize n = normalize m)
    ∧ (endsDot n = false → normalize (n ++ ".") = normalize n)
    ∧ lookupMap (buildZones [⟨"www.example.com", 300, "A", "10.1.2.3"⟩]).Z
        (normalize "WWW.EXAMPLE.COM.")
      = some (buildZone ⟨"www.example.com", 300, "A", "10.1.2.3"⟩) :=
  ⟨normalize_idem n, normalize_of_lowerStr_eq n m, normalize_append_dot n, by decide⟩

/-- C7 witness: concrete case/trailing-dot variants normalize alike. -/
theorem c7_normalization_round_trip_witness :
    normalize "www.example.com" = normalize "WWW.Example.COM"
    ∧ normalize ("www.example.com" ++ ".") = normalize "www.example.com" :=
  ⟨(c7_normalization_round_trip "www.example.com" "WWW.Example.COM").2.1 (by decide),
   (c7_normalization_round_trip "www.example.com" "WWW.Example.COM").2.2.1 (by decide)⟩

/-- C8: the type string matches case-insensitively against exactly
{A, AAAA, CNAME, TXT} — the stored code is 0 (UNKNOWN) precisely for every
other string, and equal lower-casings give equal codes; an UNKNOWN-typed
entry is still stored (every raw record's name is present after load); and
no answer ever carries type 0, so an UNKNOWN entry is never a usable
answer. -/
theorem c8_unknown_type_stored_never_answered (t t' : String) (st : ViewsState)
    (ip qtype : Nat) (qname : String) (recs : List RawRecordEntry) (r : RawRecordEntry) :
    (rrtypeOfString t = 0 ↔ upperStr t ∉ (["A", "AAAA", "CNAME", "TXT"] : List String))
    ∧ (lowerStr t = lowerStr t' → rrtypeOfString t = rrtypeOfString t')
    ∧ (r ∈ recs → (lookupMap (buildZones recs).Z (normalize r.name)).isSome)
    ∧ (∀ ttl ty v, resolve st ip qname qtype = .answer ttl ty v → ty ≠ 0) := by
  refine ⟨?_, ?_, ?_, ?_⟩
  · unfold rrtypeOfString
    split_ifs with h1 h2 h3 h4 <;> simp_all
  · intro h
    have hu : upperStr t = upperStr t' := by
      rw [← upperStr_lowerStr t, ← upperStr_lowerStr t', h]
    unfold rrtypeOfString
    rw [hu]
  · intro hr
    exact (buildZones_lookup_isSome recs (normalize r.name)).mpr ⟨r, hr, rfl⟩
  · intro ttl ty v h
    unfold resolve at h
    split at h
    · exact RResult.noConfusion h
    · split at h
      · exact RResult.noConfusion h
      · split at h
        · exact RResult.noConfusion h
        · split at h
          · exact RResult.noConfusion h
          · split at h
            · injection h with hT hTy hV
              omega
            · exact RResult.noConfusion h

/-- C8 witness: the type string is case-insensitive on a concrete pair, an
`MX`-typed (hence UNKNOWN) record is stored, and a concrete resolve answer
has a nonzero type. -/
theorem c8_unknown_type_stored_never_answered_witness :
    rrtypeOfString "cname" = rrtypeOfString "CNAME"
    ∧ (lookupMap (buildZones [⟨"a.b", 1, "MX", "x.y"⟩]).Z (normalize "a.b")).isSome :=
  ⟨(c8_unknown_type_stored_never_answered "cname" "CNAME" ⟨[], []⟩ 0 0 ""
      [] ⟨"", 0, "", ""⟩).2.1 (by decide),
   (c8_unknown_type_stored_never_answered "cname" "CNAME" ⟨[], []⟩ 0 0 ""
      [⟨"a.b", 1, "MX", "x.y"⟩] ⟨"a.b", 1, "MX", "x.y"⟩).2.2.1 (by decide)⟩

/-- C9: the stored value is the DNS-name normalization of the raw value for
every record, whatever its type; concretely a TXT record's text is
lower-cased and fully qualified, so the answer value differs from the raw
configured text. -/
theorem c9_value_normalized_regardless_of_type (r : RawRecordEntry) :
    (buildZone r).Value = normalize r.value
    ∧ (buildZone ⟨"txt.example.com", 300, "TXT", "Hello TXT"⟩).Value = "hello txt."
    ∧ "hello txt." ≠ "Hello TXT"
    ∧ (buildZone ⟨"a.b", 1, "MX", "Mail.Example.Com"⟩).Value = "mail.example.com." :=
  ⟨rfl, by decide, by decide, by decide⟩

/-- C10: `Names` lists exactly one normalized name per raw record in input
order — duplicates included — so its length equals the raw count, while the
entry map holds at most that many (and strictly fewer when names repeat:
the concrete duplicate input has two names but one map entry). -/
theorem c10_names_keep_duplicates (recs : List RawRecordEntry) :
    (buildZones recs).Names = recs.map (fun r => normalize r.name)
    ∧ (buildZones recs).Names.length = recs.length
    ∧ (buildZones recs).Z.length ≤ recs.length
    ∧ (buildZones [⟨"a.b", 1, "A", "1.1.1.1"⟩, ⟨"a.b", 2, "A", "2.2.2.2"⟩]).Names.length = 2
    ∧ (buildZones [⟨"a.b", 1, "A", "1.1.1.1"⟩, ⟨"a.b", 2, "A", "2.2.2.2"⟩]).Z.length = 1 := by
  refine ⟨buildZones_Names recs, ?_, ?_, by decide, by decide⟩
  · rw [buildZones_Names, List.length_map]
  · have h := foldl_addRecord_length recs ⟨[], []⟩
    simpa using h

end Views
